import Mathlib

/-!
# The line checker `fcmp_rtrim` (checkers/ubuntu/fcmp_rtrim.cpp)

A shallow embedding of `rtrim` and of the comparison loop of `main`, and the
properties of the line comparator proved about it.

Conventions of the embedding.

* A line is a `String` (a C++ `std::string` is a sequence of bytes; a byte is a
  `Char` here).  A stream (`ans`, `ouf`) is the list of the lines it still
  holds: `eof()` is "the list is empty", `readString()` removes the head.
* `rtrim` reads `s.c_str()[p]` with `p` starting at `s.size()-1` and no lower
  bound.  For an empty or all-space line the read at index `-1` falls on the
  memory that precedes the character buffer.  That memory is the parameter
  `before` (nearest byte first): the definitions say what the code does for
  every content of it.
* `int` values (`p`, `n`) are unbounded integers: lines and line counts are
  taken to stay below `2^31`.  The conversion of `p+1` to `size_t` in
  `string(s, 0, p+1)` is explicit (a negative value wraps around `2^64`).
* `testlib.h` is not part of the source file; what `main` uses from it
  (`compress`, `englishEnding`, the streams, `quitf`) is modelled below.
-/

namespace FcmpRtrim

/-! ## `rtrim` -/

/-- The byte `s.c_str()[p]` for `0 ≤ p ≤ s.size()`: the character of the string,
and the terminating NUL at index `s.size()`. -/
def cstrAt (s : List Char) (p : Nat) : Char := s.getD p '\x00'

/-- The scan of `rtrim` once `p` is negative.  The bytes read are the ones that
precede the buffer; `p` is the index being read.  The scan goes on while it
reads a space; running off the known memory is a fault (`none`). -/
def scanBelow : List Char → Int → Option Int
  | [], _ => none
  | c :: rest, p => if c = ' ' then scanBelow rest (p - 1) else some p

/-- The loop `for (p = s.size()-1; s.c_str()[p]==' '; p--){}`; the argument is
`p + 1`, the result is the final `p`. -/
def scanFrom (before : List Char) (s : List Char) : Nat → Option Int
  | 0 => scanBelow before (-1)
  | q + 1 => if cstrAt s q = ' ' then scanFrom before s q else some (q : Int)

/-- The constructor call `string(s, 0, len)` with `len` an `int`: the count is
`len` converted to `size_t` (a negative `len` wraps around, `2^64` is added), and
the first `min(count, s.size())` characters are copied. -/
def substr0 (s : List Char) (len : Int) : List Char :=
  s.take (if 0 ≤ len then len else len + 2 ^ 64).toNat

/-- The function `rtrim` of the source. -/
def rtrim (before : List Char) (s : String) : Option String :=
  (scanFrom before s.data s.data.length).map fun p => String.mk (substr0 s.data (p + 1))

/-- The indices read by the scan of `rtrim` once `p` is negative, in the order
they are read; `p` is the index being read first.  The read that leaves the
known memory is listed too. -/
def readsBelow : List Char → Int → List Int
  | [], p => [p]
  | c :: rest, p => p :: (if c = ' ' then readsBelow rest (p - 1) else [])

/-- The indices `p` at which the loop of `rtrim` evaluates `s.c_str()[p]`, in
order; the argument is `p + 1` as in `scanFrom`. -/
def readsFrom (before : List Char) (s : List Char) : Nat → List Int
  | 0 => readsBelow before (-1)
  | q + 1 => (q : Int) :: (if cstrAt s q = ' ' then readsFrom before s q else [])

/-- The indices read by `rtrim(s)`. -/
def rtrimReads (before : List Char) (s : String) : List Int :=
  readsFrom before s.data s.data.length

/-- The byte right before the buffer exists and is not a space, so the scan
stops at `p = -1` at the latest. -/
def StopsBelow (before : List Char) : Prop :=
  ∃ c rest, before = c :: rest ∧ c ≠ ' '

/-! ## What `main` uses from testlib -/

/-- Modelled from the spec: `englishEnding` of testlib.h, the English ordinal
suffix of a 1-based count (1st, 2nd, 3rd, 4th, 11th, 21st). -/
def englishEnding (x : Nat) : String :=
  let y := x % 100
  if y / 10 = 1 then "th"
  else if y % 10 = 1 then "st"
  else if y % 10 = 2 then "nd"
  else if y % 10 = 3 then "rd"
  else "th"

/-- Modelled from the spec: `compress` of testlib.h, the display form of a line
(NUL bytes shown as a tilde, a line of more than 64 characters cut to its first
30 and last 31 characters around three dots). -/
def compress (s : String) : String :=
  let t := s.data.map fun c => if c = '\x00' then '~' else c
  if t.length ≤ 64 then String.mk t
  else String.mk (t.take 30 ++ "...".data ++ t.drop (t.length - 31))

/-- What a `%s` conversion prints for `s.c_str()`: the bytes before the first
NUL. -/
def c_str (s : String) : String := String.mk (s.data.takeWhile fun c => c ≠ '\x00')

/-- The message of `quitf(_wa, "%d%s lines differ - expected: '%s', found: '%s'", ...)`. -/
def waMessage (n : Nat) (j p : String) : String :=
  toString n ++ englishEnding n ++ " lines differ - expected: '" ++ c_str (compress j)
    ++ "', found: '" ++ c_str (compress p) ++ "'"

/-- The message of the two `quitf(_ok, ...)` calls that end `main`. -/
def okMessage (n : Nat) (strAnswer : String) : String :=
  if n = 1 then "single line: '" ++ c_str (compress strAnswer) ++ "'"
  else toString n ++ " lines"

/-- How a run ends. `accepted` and `wrongAnswer` are the two verdicts with their
messages; `unexpectedEof` is `ouf.readString()` on an exhausted submission;
`fault` is a scan of `rtrim` that left the known memory. -/
inductive Exit where
  | accepted (msg : String)
  | wrongAnswer (msg : String)
  | unexpectedEof
  | fault
  deriving DecidableEq

/-- The end of a run: how it ended and the variables and stream cursors of
`main` at that point. -/
structure Run where
  exit : Exit
  n : Nat
  strAnswer : String
  ans : List String
  ouf : List String
  deriving DecidableEq

/-! ## The loop of `main` -/

/-- The `while (!ans.eof())` loop of `main` followed by the final `quitf`
calls, from the state `(ans, ouf, strAnswer, n)`. -/
def loop (before : List Char) : List String → List String → String → Nat → Run
  | [], ouf, strAnswer, n => ⟨.accepted (okMessage n strAnswer), n, strAnswer, [], ouf⟩
  | j0 :: ans, ouf, strAnswer, n =>
    match rtrim before j0 with
    | none => ⟨.fault, n, strAnswer, ans, ouf⟩
    | some j =>
      if j = "" ∧ ans = [] then
        ⟨.accepted (okMessage n strAnswer), n, strAnswer, ans, ouf⟩
      else
        match ouf with
        | [] => ⟨.unexpectedEof, n, j, ans, []⟩
        | p :: ouf =>
          if j ≠ p then ⟨.wrongAnswer (waMessage (n + 1) j p), n + 1, j, ans, ouf⟩
          else loop before ans ouf j (n + 1)

/-- The checker: `main` on the reference lines `R` and the submission lines `S`. -/
def compare (before : List Char) (R S : List String) : Run :=
  loop before R S "" 0

/-- Whether the run ended with the verdict Accepted. -/
def Run.isAccepted (r : Run) : Prop := ∃ m, r.exit = .accepted m

/-- Whether the run ended with the verdict WrongAnswer. -/
def Run.isWrongAnswer (r : Run) : Prop := ∃ m, r.exit = .wrongAnswer m

/-! ## Notions used to state the properties -/

/-- A line with its trailing spaces removed (the intended result of `rtrim`). -/
def trim (s : String) : String := String.mk (s.data.rdropWhile fun c => c = ' ')

/-- The reference lines that take part in the comparison: `R` without its last
line when that line is empty after trimming. -/
def comparedLines (before : List Char) (R : List String) : List String :=
  match R.getLast? with
  | some l => if rtrim before l = some "" then R.dropLast else R
  | none => R

/-- Line `i` of the reference, trimmed, equals line `i` of the submission (both
lines exist). -/
def MatchesAt (before : List Char) (R S : List String) (i : Nat) : Prop :=
  ∃ r p, R[i]? = some r ∧ S[i]? = some p ∧ rtrim before r = some p

/-- The value of `strAnswer` after the lines `R` have been compared, `sa` being
its value before. -/
def lastAnswer (before : List Char) (R : List String) (sa : String) : String :=
  R.foldl (fun acc r => (rtrim before r).getD acc) sa

/-- The line made of `k` ASCII spaces. -/
def spaces (k : Nat) : String := String.mk (List.replicate k ' ')

/-- The line does not end in a space. -/
def NoTrailingSpace (s : String) : Prop := s.data.getLast? ≠ some ' '

instance (s : String) : Decidable (NoTrailingSpace s) := by
  unfold NoTrailingSpace; infer_instance

/-- The line is empty or made of ASCII spaces only. -/
def AllSpaces (s : String) : Prop := ∀ c ∈ s.data, c = ' '

instance (s : String) : Decidable (AllSpaces s) := by
  unfold AllSpaces; infer_instance

/-- The lines of `L` once the blank lines at its end are removed (every one of
them). -/
def withoutTrailingBlanks (L : List String) : List String :=
  L.rdropWhile fun l => decide (AllSpaces l)

/-- The number of submission lines a run has read, `S` being the submission. -/
def Run.linesRead (r : Run) (S : List String) : Nat := S.length - r.ouf.length

/-! ## The loop, one iteration at a time -/

/-- The variables of `main` at the head of the loop: the two stream cursors,
`strAnswer` and `n`. -/
structure State where
  ans : List String
  ouf : List String
  strAnswer : String
  n : Nat
  deriving DecidableEq

/-- What one pass through the loop head does: the run ends, or the body completes
and the loop head is reached again. -/
inductive Step where
  | halt (r : Run)
  | next (s : State)
  deriving DecidableEq

/-- One pass: the test `!ans.eof()` and, when it holds, the body of the loop. -/
def step (before : List Char) (s : State) : Step :=
  match s.ans with
  | [] => .halt ⟨.accepted (okMessage s.n s.strAnswer), s.n, s.strAnswer, [], s.ouf⟩
  | j0 :: ans =>
    match rtrim before j0 with
    | none => .halt ⟨.fault, s.n, s.strAnswer, ans, s.ouf⟩
    | some j =>
      if j = "" ∧ ans = [] then
        .halt ⟨.accepted (okMessage s.n s.strAnswer), s.n, s.strAnswer, ans, s.ouf⟩
      else
        match s.ouf with
        | [] => .halt ⟨.unexpectedEof, s.n, j, ans, []⟩
        | p :: ouf =>
          if j ≠ p then .halt ⟨.wrongAnswer (waMessage (s.n + 1) j p), s.n + 1, j, ans, ouf⟩
          else .next ⟨ans, ouf, j, s.n + 1⟩

/-- The states in which the loop head is reached in the run that starts in `s0`. -/
inductive Reach (before : List Char) (s0 : State) : State → Prop where
  | start : Reach before s0 s0
  | pass {s s' : State} : Reach before s0 s → step before s = .next s' → Reach before s0 s'

/-- The last reference line that is not blank, if there is one. -/
def lastNonBlank (R : List String) : Option String :=
  (R.filter fun l => decide (¬ AllSpaces l)).getLast?

/-- Every compared line matches: the run is accepted after `|R'|` comparisons. -/
def EndsAccepted (before : List Char) (R S : List String) (sa : String) (n : Nat) : Prop :=
  (∀ i, i < (comparedLines before R).length → MatchesAt before (comparedLines before R) S i) ∧
  (loop before R S sa n).exit
    = .accepted (okMessage (n + (comparedLines before R).length)
        (lastAnswer before (comparedLines before R) sa)) ∧
  (loop before R S sa n).n = n + (comparedLines before R).length ∧
  (loop before R S sa n).strAnswer = lastAnswer before (comparedLines before R) sa ∧
  (loop before R S sa n).ans = [] ∧
  (loop before R S sa n).ouf = S.drop (comparedLines before R).length

/-- Line `k` is the first that differs: the run is a wrong answer at `k + 1`. -/
def EndsWrong (before : List Char) (R S : List String) (n k : Nat) (run : Run) : Prop :=
  ∃ r j p, (comparedLines before R)[k]? = some r ∧ R[k]? = some r ∧ S[k]? = some p ∧
    rtrim before r = some j ∧ j ≠ p ∧
    (∀ i, i < k → MatchesAt before R S i) ∧
    run = ⟨.wrongAnswer (waMessage (n + k + 1) j p), n + k + 1, j, R.drop (k + 1), S.drop (k + 1)⟩

/-- The submission matches as far as it goes and then lacks a line. -/
def EndsEof (before : List Char) (R S : List String) (n : Nat) (run : Run) : Prop :=
  S.length < (comparedLines before R).length ∧
  (∀ i, i < S.length → MatchesAt before R S i) ∧
  ∃ r j, R[S.length]? = some r ∧ rtrim before r = some j ∧
    run = ⟨.unexpectedEof, n + S.length, j, R.drop (S.length + 1), []⟩

/-- The scan of `rtrim` faults on line `k`, the lines before it match. -/
def EndsFault (before : List Char) (R S : List String) (k : Nat) (run : Run) : Prop :=
  ∃ r, R[k]? = some r ∧ rtrim before r = none ∧ k ≤ S.length ∧
    (∀ i, i < k → MatchesAt before R S i) ∧ run.exit = .fault

/-! ## `rtrim` removes the trailing spaces -/

theorem scanBelow_of_stopsBelow {before : List Char} (hb : StopsBelow before) (p : Int) :
    scanBelow before p = some p := by
  obtain ⟨c, rest, rfl, hc⟩ := hb
  simp [scanBelow, hc]

theorem scanFrom_eq (before : List Char) (s : List Char) :
    ∀ k, k ≤ s.length → (StopsBelow before ∨ ∃ c ∈ s.take k, c ≠ ' ') →
      scanFrom before s k = some ((((s.take k).rdropWhile fun c => c = ' ').length : Int) - 1) := by
  intro k
  induction k with
  | zero =>
    intro _ h
    rcases h with hb | ⟨c, hc, _⟩
    · simp [scanFrom, scanBelow_of_stopsBelow hb]
    · simp at hc
  | succ q ih =>
    intro hq h
    have hq1 : q < s.length := hq
    have htake : s.take (q + 1) = s.take q ++ [s[q]] := by
      rw [List.take_succ, List.getElem?_eq_getElem hq1]; rfl
    have hc : cstrAt s q = s[q] := by
      simp [cstrAt, List.getD, List.getElem?_eq_getElem hq1]
    rw [scanFrom, hc, htake, List.rdropWhile_concat]
    by_cases hsp : s[q] = ' '
    · have h' : StopsBelow before ∨ ∃ c ∈ s.take q, c ≠ ' ' := by
        rcases h with hb | ⟨c, hmem, hne⟩
        · exact Or.inl hb
        · right
          rw [htake, List.mem_append, List.mem_singleton] at hmem
          rcases hmem with hm | hm
          · exact ⟨c, hm, hne⟩
          · exact absurd (hm.trans hsp) hne
      simp [hsp, ih (Nat.le_of_lt hq1) h']
    · simp only [hsp, decide_False, Bool.false_eq_true, if_false, List.length_append,
        List.length_take, List.length_singleton, Nat.min_eq_left (Nat.le_of_lt hq1)]
      congr 1
      omega

/-- The function `rtrim` returns the line without its trailing spaces when the
line has a character other than a space, and on every line when the byte before
the buffer is not a space. -/
theorem rtrim_eq_trim_of {before : List Char} {s : String}
    (hs : StopsBelow before ∨ ¬ AllSpaces s) : rtrim before s = some (trim s) := by
  have hs' : StopsBelow before ∨ ∃ c ∈ s.data.take s.data.length, c ≠ ' ' := by
    rcases hs with hb | hn
    · exact Or.inl hb
    · right
      rw [List.take_length]
      simpa [AllSpaces] using hn
  have h := scanFrom_eq before s.data s.data.length (Nat.le_refl _) hs'
  rw [List.take_length] at h
  have hpre : (s.data.rdropWhile fun c => c = ' ') <+: s.data :=
    List.rdropWhile_prefix (fun c => decide (c = ' ')) s.data
  simp only [rtrim, h, Option.map_some', trim, substr0]
  congr 2
  have : (0:Int) ≤ ((s.data.rdropWhile fun c => c = ' ').length : Int) - 1 + 1 := by omega
  rw [if_pos this]
  have e : (((s.data.rdropWhile fun c => c = ' ').length : Int) - 1 + 1).toNat
      = (s.data.rdropWhile fun c => c = ' ').length := by omega
  rw [e]
  exact (List.prefix_iff_eq_take.mp hpre).symm

theorem rtrim_eq_trim {before : List Char} (hb : StopsBelow before) (s : String) :
    rtrim before s = some (trim s) :=
  rtrim_eq_trim_of (Or.inl hb)

/-! ## One iteration of the loop -/

theorem loop_nil (before : List Char) (S : List String) (sa : String) (n : Nat) :
    loop before [] S sa n = ⟨.accepted (okMessage n sa), n, sa, [], S⟩ := by
  simp [loop]

theorem loop_fault {before : List Char} {r : String} (h : rtrim before r = none)
    (rest S : List String) (sa : String) (n : Nat) :
    loop before (r :: rest) S sa n = ⟨.fault, n, sa, rest, S⟩ := by
  simp [loop, h]

theorem loop_break {before : List Char} {r : String} (h : rtrim before r = some "")
    (S : List String) (sa : String) (n : Nat) :
    loop before [r] S sa n = ⟨.accepted (okMessage n sa), n, sa, [], S⟩ := by
  simp [loop, h]

theorem loop_eof {before : List Char} {r j : String} {rest : List String}
    (h : rtrim before r = some j) (hne : ¬(j = "" ∧ rest = [])) (sa : String) (n : Nat) :
    loop before (r :: rest) [] sa n = ⟨.unexpectedEof, n, j, rest, []⟩ := by
  simp only [loop, h, if_neg hne]

theorem loop_differ {before : List Char} {r j p : String} {rest : List String}
    (h : rtrim before r = some j) (hne : ¬(j = "" ∧ rest = [])) (hjp : j ≠ p)
    (S : List String) (sa : String) (n : Nat) :
    loop before (r :: rest) (p :: S) sa n
      = ⟨.wrongAnswer (waMessage (n + 1) j p), n + 1, j, rest, S⟩ := by
  simp only [loop, h, if_neg hne, if_pos hjp]

theorem loop_equal {before : List Char} {r j : String} {rest : List String}
    (h : rtrim before r = some j) (hne : ¬(j = "" ∧ rest = []))
    (S : List String) (sa : String) (n : Nat) :
    loop before (r :: rest) (j :: S) sa n = loop before rest S j (n + 1) := by
  simp only [loop, h, if_neg hne, ne_eq, not_true_eq_false, if_false]

/-! ## The compared lines -/

theorem comparedLines_nil (before : List Char) : comparedLines before [] = [] := by
  simp [comparedLines]

theorem comparedLines_singleton (before : List Char) (r : String) :
    comparedLines before [r] = if rtrim before r = some "" then [] else [r] := by
  simp [comparedLines]

theorem comparedLines_cons {before : List Char} (r : String) {rest : List String}
    (h : rest ≠ []) : comparedLines before (r :: rest) = r :: comparedLines before rest := by
  obtain ⟨r2, rest2, rfl⟩ := List.exists_cons_of_ne_nil h
  simp only [comparedLines, List.getLast?_cons_cons]
  cases hl : (r2 :: rest2).getLast? with
  | none => simp
  | some l =>
    by_cases hb : rtrim before l = some ""
    · simp [hb, List.dropLast]
    · simp [hb]

theorem comparedLines_step {before : List Char} {r j : String} {rest : List String}
    (h : rtrim before r = some j) (hne : ¬(j = "" ∧ rest = [])) :
    comparedLines before (r :: rest) = r :: comparedLines before rest := by
  by_cases hr : rest = []
  · subst hr
    have hj : j ≠ "" := fun e => hne ⟨e, rfl⟩
    have : rtrim before r ≠ some "" := by
      rw [h]; intro e; exact hj (Option.some.inj e)
    simp [comparedLines_singleton, comparedLines_nil, this]
  · exact comparedLines_cons r hr

theorem comparedLines_length_le (before : List Char) (R : List String) :
    (comparedLines before R).length ≤ R.length := by
  unfold comparedLines
  cases R.getLast? with
  | none => simp
  | some l =>
    by_cases hb : rtrim before l = some ""
    · simp [hb]
    · simp [hb]

theorem matchesAt_cons_zero (before : List Char) (r p : String) (R S : List String) :
    MatchesAt before (r :: R) (p :: S) 0 ↔ rtrim before r = some p := by
  simp [MatchesAt]

theorem matchesAt_cons_succ (before : List Char) (r p : String) (R S : List String) (i : Nat) :
    MatchesAt before (r :: R) (p :: S) (i + 1) ↔ MatchesAt before R S i := by
  simp [MatchesAt]

theorem lastAnswer_cons {before : List Char} {r j : String} (h : rtrim before r = some j)
    (R : List String) (sa : String) :
    lastAnswer before (r :: R) sa = lastAnswer before R j := by
  simp [lastAnswer, h]

/-! ## The four ways a run ends -/

theorem loop_cases (before : List Char) (R : List String) :
    ∀ (S : List String) (sa : String) (n : Nat),
      EndsAccepted before R S sa n ∨ (∃ k, EndsWrong before R S n k (loop before R S sa n)) ∨
      EndsEof before R S n (loop before R S sa n) ∨
      (∃ k, EndsFault before R S k (loop before R S sa n)) := by
  induction R with
  | nil =>
    intro S sa n
    left
    simp [EndsAccepted, comparedLines_nil, loop_nil, lastAnswer]
  | cons r rest ih =>
    intro S sa n
    cases hr : rtrim before r with
    | none =>
      right; right; right
      exact ⟨0, r, by simp, hr, Nat.zero_le _, by intro i hi; omega, by simp [loop_fault hr]⟩
    | some j =>
      by_cases hbrk : j = "" ∧ rest = []
      · obtain ⟨hj, hrest⟩ := hbrk
        subst hj; subst hrest
        left
        simp [EndsAccepted, comparedLines_singleton, hr, loop_break hr, lastAnswer]
      · have hcl := comparedLines_step hr hbrk
        cases S with
        | nil =>
          right; right; left
          refine ⟨by simp [hcl], by intro i hi; simp at hi, r, j, by simp, hr, ?_⟩
          simp [loop_eof hr hbrk]
        | cons p S =>
          by_cases hjp : j = p
          · subst hjp
            rw [loop_equal hr hbrk]
            have hshift : ∀ k, (∀ i, i < k → MatchesAt before rest S i) →
                ∀ i, i < k + 1 → MatchesAt before (r :: rest) (j :: S) i := by
              intro k hk i hi
              cases i with
              | zero => exact (matchesAt_cons_zero before r j rest S).mpr hr
              | succ i =>
                exact (matchesAt_cons_succ before r j rest S i).mpr (hk i (by omega))
            rcases ih S j (n + 1) with hA | ⟨k, hW⟩ | hE | ⟨k, hF⟩
            · left
              obtain ⟨h1, h2, h3, h4, h5, h6⟩ := hA
              refine ⟨?_, ?_, ?_, ?_, ?_, ?_⟩
              · intro i hi
                rw [hcl] at hi ⊢
                cases i with
                | zero => exact (matchesAt_cons_zero before r j _ S).mpr hr
                | succ i =>
                  exact (matchesAt_cons_succ before r j _ S i).mpr
                    (h1 i (by simpa using hi))
              · rw [loop_equal hr hbrk, h2, hcl, lastAnswer_cons hr, List.length_cons]
                congr 2; omega
              · rw [loop_equal hr hbrk, h3, hcl, List.length_cons]; omega
              · rw [loop_equal hr hbrk, h4, hcl, lastAnswer_cons hr]
              · rw [loop_equal hr hbrk, h5]
              · rw [loop_equal hr hbrk, h6, hcl]; simp
            · right; left
              obtain ⟨r', j', p', h1, h2, h3, h4, h5, h6, h7⟩ := hW
              refine ⟨k + 1, r', j', p', by simp [hcl, h1], by simp [h2], by simp [h3], h4, h5,
                hshift k h6, ?_⟩
              rw [h7]
              simp only [List.drop_succ_cons, Run.mk.injEq, and_true, true_and]
              refine ⟨?_, ?_⟩
              · congr 2; omega
              · omega
            · right; right; left
              obtain ⟨h1, h2, r', j', h3, h4, h5⟩ := hE
              refine ⟨by simp [hcl]; omega, ?_, r', j', by simp [h3], h4, ?_⟩
              · intro i hi
                exact hshift S.length h2 i (by simpa using hi)
              · rw [h5]
                simp only [List.length_cons, List.drop_succ_cons, Run.mk.injEq, and_true, true_and]
                omega
            · right; right; right
              obtain ⟨r', h1, h2, h3, h4, h5⟩ := hF
              exact ⟨k + 1, r', by simp [h1], h2, by simp; omega, hshift k h4, h5⟩
          · right; left
            refine ⟨0, r, j, p, by simp [hcl], by simp, by simp, hr, hjp,
              by intro i hi; omega, ?_⟩
            simp [loop_differ hr hbrk hjp]

/-! ## Consequences of the case analysis -/

theorem comparedLines_eq_or (before : List Char) (R : List String) :
    comparedLines before R = R ∨
      ∃ l, R = comparedLines before R ++ [l] ∧ rtrim before l = some "" := by
  unfold comparedLines
  cases hl : R.getLast? with
  | none => left; rfl
  | some l =>
    by_cases hb : rtrim before l = some ""
    · right
      refine ⟨l, ?_, hb⟩
      simp only [hb, if_true]
      exact (List.dropLast_append_getLast? l (by simp [hl])).symm
    · left; simp [hb]

theorem comparedLines_getElem? {before : List Char} {R : List String} {i : Nat}
    (h : i < (comparedLines before R).length) : (comparedLines before R)[i]? = R[i]? := by
  rcases comparedLines_eq_or before R with e | ⟨l, e, _⟩
  · rw [e]
  · conv_rhs => rw [e]
    rw [List.getElem?_append_left h]

theorem matchesAt_compared {before : List Char} {R S : List String} {i : Nat}
    (h : i < (comparedLines before R).length) :
    MatchesAt before (comparedLines before R) S i ↔ MatchesAt before R S i := by
  simp only [MatchesAt, comparedLines_getElem? h]

theorem lt_compared_of_ne_blank {before : List Char} {R : List String} {k : Nat} {r : String}
    (hk : R[k]? = some r) (hr : rtrim before r ≠ some "") :
    k < (comparedLines before R).length := by
  have hkR : k < R.length := by
    rcases Nat.lt_or_ge k R.length with h | h
    · exact h
    · rw [List.getElem?_eq_none h] at hk; cases hk
  rcases comparedLines_eq_or before R with e | ⟨l, e, hl⟩
  · rw [e]; exact hkR
  · rcases Nat.lt_or_ge k (comparedLines before R).length with h | h
    · exact h
    · exfalso
      rw [e] at hk hkR
      simp only [List.length_append, List.length_singleton] at hkR
      have hk' : k = (comparedLines before R).length := by omega
      rw [hk'] at hk
      simp at hk
      exact hr (hk ▸ hl)

theorem not_fault_of_stopsBelow {before : List Char} (hb : StopsBelow before)
    (R S : List String) (k : Nat) (run : Run) : ¬ EndsFault before R S k run := by
  rintro ⟨r, _, h, _⟩
  rw [rtrim_eq_trim hb] at h
  cases h

/-- An accepted run is one in which every compared line matched. -/
theorem endsAccepted_of_accepted {before : List Char} {R S : List String} {sa : String}
    {n : Nat} (h : (loop before R S sa n).isAccepted) : EndsAccepted before R S sa n := by
  obtain ⟨m, hm⟩ := h
  rcases loop_cases before R S sa n with hA | ⟨k, r, j, p, _, _, _, _, _, _, hW⟩ |
      ⟨_, _, r, j, _, _, hE⟩ | ⟨k, r, _, _, _, _, hF⟩
  · exact hA
  · rw [hW] at hm; cases hm
  · rw [hE] at hm; cases hm
  · rw [hF] at hm; cases hm

/-- A wrong answer comes from a first differing line. -/
theorem endsWrong_of_wrong {before : List Char} {R S : List String} {sa : String}
    {n : Nat} (h : (loop before R S sa n).isWrongAnswer) :
    ∃ k, EndsWrong before R S n k (loop before R S sa n) := by
  obtain ⟨m, hm⟩ := h
  rcases loop_cases before R S sa n with ⟨_, hA, _⟩ | hW |
      ⟨_, _, r, j, _, _, hE⟩ | ⟨k, r, _, _, _, _, hF⟩
  · rw [hA] at hm; cases hm
  · exact hW
  · rw [hE] at hm; cases hm
  · rw [hF] at hm; cases hm

/-- When every compared line matches, the run is accepted. -/
theorem endsAccepted_of_matches {before : List Char} {R S : List String} (sa : String)
    (n : Nat)
    (h : ∀ i, i < (comparedLines before R).length →
      MatchesAt before (comparedLines before R) S i) :
    EndsAccepted before R S sa n := by
  rcases loop_cases before R S sa n with hA | ⟨k, r, j, p, h1, _, h3, h4, h5, _, _⟩ |
      ⟨h1, _, _⟩ | ⟨k, r, h1, h2, _, _, _⟩
  · exact hA
  · exfalso
    have hk : k < (comparedLines before R).length := by
      rcases Nat.lt_or_ge k (comparedLines before R).length with h | h
      · exact h
      · rw [List.getElem?_eq_none h] at h1; cases h1
    obtain ⟨r', p', e1, e2, e3⟩ := h k hk
    rw [h1] at e1; rw [h3] at e2
    cases e1; cases e2
    rw [h4] at e3
    exact h5 (Option.some.inj e3)
  · exfalso
    obtain ⟨r', p', _, e2, _⟩ := h S.length h1
    simp at e2
  · exfalso
    have hk : k < (comparedLines before R).length :=
      lt_compared_of_ne_blank h1 (by rw [h2]; simp)
    obtain ⟨r', p', e1, _, e3⟩ := h k hk
    rw [comparedLines_getElem? hk, h1] at e1
    cases e1
    rw [h2] at e3; cases e3

/-! ## Trimming lines of a known shape -/

theorem trim_of_allSpaces {b : String} (h : AllSpaces b) : trim b = "" := by
  have : (b.data.rdropWhile fun c => decide (c = ' ')) = [] :=
    List.rdropWhile_eq_nil_iff.mpr (by intro c hc; simpa using h c hc)
  simp only [trim, this]

theorem trim_of_noTrailingSpace {s : String} (h : NoTrailingSpace s) : trim s = s := by
  have : (s.data.rdropWhile fun c => decide (c = ' ')) = s.data := by
    apply List.rdropWhile_eq_self_iff.mpr
    intro hl hsp
    apply h
    rw [List.getLast?_eq_getLast _ hl]
    simpa using hsp
  simp only [trim, this]

theorem rdropWhile_append_replicate (l : List Char) (k : Nat) :
    ((l ++ List.replicate k ' ').rdropWhile fun c => decide (c = ' '))
      = l.rdropWhile fun c => decide (c = ' ') := by
  induction k with
  | zero => simp
  | succ k ih =>
    rw [List.replicate_succ', ← List.append_assoc, List.rdropWhile_concat_pos _ _ _ (by simp), ih]

theorem trim_append_spaces {s : String} (h : NoTrailingSpace s) (k : Nat) :
    trim (s ++ spaces k) = s := by
  have e := trim_of_noTrailingSpace h
  simp only [trim] at e ⊢
  simp only [spaces, String.data_append]
  rw [rdropWhile_append_replicate]
  exact e

theorem not_allSpaces_append {s : String} (hs : NoTrailingSpace s) (k : Nat)
    (hne : s ≠ "") : ¬ AllSpaces (s ++ spaces k) := by
  intro hall
  have hd : s.data ≠ [] := by
    intro e
    apply hne
    cases s
    simp only at e
    subst e
    rfl
  apply hs
  rw [List.getLast?_eq_getLast _ hd]
  congr 1
  apply hall
  simp only [String.data_append, List.mem_append]
  exact Or.inl (List.getLast_mem hd)

theorem append_spaces_ne {r : String} {k : Nat} (hk : 1 ≤ k) : r ≠ r ++ spaces k := by
  intro e
  have h := congrArg (fun t : String => t.data.length) e
  simp only [spaces, String.data_append, List.length_append, List.length_replicate] at h
  omega

theorem rtrim_blank {before : List Char} (hb : StopsBelow before) {b : String}
    (h : AllSpaces b) : rtrim before b = some "" := by
  rw [rtrim_eq_trim hb, trim_of_allSpaces h]

/-! ## A blank line appended to the reference, lines appended to the submission -/

theorem loop_append_blank {before : List Char} {b : String} (hb : rtrim before b = some "")
    (R : List String) :
    ∀ (S : List String) (sa : String) (n : Nat),
      (∀ l, R.getLast? = some l → rtrim before l ≠ some "") →
      (loop before (R ++ [b]) S sa n).exit = (loop before R S sa n).exit ∧
      (loop before (R ++ [b]) S sa n).n = (loop before R S sa n).n ∧
      (loop before (R ++ [b]) S sa n).strAnswer = (loop before R S sa n).strAnswer ∧
      (loop before (R ++ [b]) S sa n).ouf = (loop before R S sa n).ouf := by
  induction R with
  | nil =>
    intro S sa n _
    simp [loop_break hb, loop_nil]
  | cons r rest ih =>
    intro S sa n hlast
    rw [List.cons_append]
    cases hr : rtrim before r with
    | none => simp [loop_fault hr]
    | some j =>
      have hne1 : ¬(j = "" ∧ rest ++ [b] = []) := by simp
      have hne2 : ¬(j = "" ∧ rest = []) := by
        rintro ⟨hj, hrest⟩
        subst hrest
        exact hlast r (by simp) (by rw [hr, hj])
      have hlast' : ∀ l, rest.getLast? = some l → rtrim before l ≠ some "" := by
        intro l hl
        apply hlast l
        cases rest with
        | nil => simp at hl
        | cons r2 rest2 => rw [List.getLast?_cons_cons]; exact hl
      cases S with
      | nil => simp [loop_eof hr hne1, loop_eof hr hne2]
      | cons p S =>
        by_cases hjp : j = p
        · subst hjp
          rw [loop_equal hr hne1, loop_equal hr hne2]
          exact ih S j (n + 1) hlast'
        · simp [loop_differ hr hne1 hjp, loop_differ hr hne2 hjp]

theorem loop_append_extra (before : List Char) (E : List String) (R : List String) :
    ∀ (S : List String) (sa : String) (n : Nat),
      ((loop before R S sa n).isAccepted ∨ (loop before R S sa n).isWrongAnswer) →
      (loop before R (S ++ E) sa n).exit = (loop before R S sa n).exit ∧
      (loop before R (S ++ E) sa n).n = (loop before R S sa n).n := by
  induction R with
  | nil => intro S sa n _; simp [loop_nil]
  | cons r rest ih =>
    intro S sa n hv
    cases hr : rtrim before r with
    | none =>
      rw [loop_fault hr] at hv
      rcases hv with ⟨m, hm⟩ | ⟨m, hm⟩ <;> cases hm
    | some j =>
      by_cases hbrk : j = "" ∧ rest = []
      · obtain ⟨hj, hrest⟩ := hbrk
        subst hj; subst hrest
        simp [loop_break hr]
      · cases S with
        | nil =>
          rw [loop_eof hr hbrk] at hv
          rcases hv with ⟨m, hm⟩ | ⟨m, hm⟩ <;> cases hm
        | cons p S =>
          rw [List.cons_append]
          by_cases hjp : j = p
          · subst hjp
            rw [loop_equal hr hbrk] at hv ⊢
            rw [loop_equal hr hbrk]
            exact ih S j (n + 1) hv
          · simp [loop_differ hr hbrk hjp]

/-! ## The position of a wrong answer -/

theorem wrongAnswer_position (before : List Char) (R S : List String) (m : String)
    (h : (compare before R S).exit = .wrongAnswer m) :
    ∃ r j p, 1 ≤ (compare before R S).n ∧
      R[(compare before R S).n - 1]? = some r ∧ S[(compare before R S).n - 1]? = some p ∧
      rtrim before r = some j ∧ j ≠ p ∧
      (∀ i, i < (compare before R S).n - 1 → MatchesAt before R S i) ∧
      m = waMessage (compare before R S).n j p := by
  unfold compare at h ⊢
  obtain ⟨k, r, j, p, _, h2, h3, h4, h5, h6, h7⟩ := endsWrong_of_wrong ⟨m, h⟩
  rw [h7] at h ⊢
  simp only [Nat.zero_add, Nat.add_sub_cancel] at h ⊢
  refine ⟨r, j, p, by omega, h2, h3, h4, h5, h6, ?_⟩
  injection h with h
  rw [← h]

/-! ## Spaces at the end of a submission line -/

theorem not_matchesAt_spaces {before : List Char} (hb : StopsBelow before)
    {R S : List String} {i k : Nat} {r : String} (hR : R[i]? = some r)
    (hr : NoTrailingSpace r) (hk : 1 ≤ k) (hS : S[i]? = some (r ++ spaces k)) :
    ¬ MatchesAt before R S i := by
  rintro ⟨r', p', e1, e2, e3⟩
  rw [hR] at e1; rw [hS] at e2
  cases e1; cases e2
  rw [rtrim_eq_trim hb, trim_of_noTrailingSpace hr] at e3
  exact append_spaces_ne hk (Option.some.inj e3)

theorem compared_length_ge (before : List Char) (R : List String) :
    R.length ≤ (comparedLines before R).length + 1 := by
  rcases comparedLines_eq_or before R with e | ⟨l, e, _⟩
  · rw [e]; omega
  · conv_lhs => rw [e]
    simp

/-! ## What `rtrim` removes -/

theorem eq_rdropWhile_append_replicate (l : List Char) :
    ∃ k, l = (l.rdropWhile fun c => decide (c = ' ')) ++ List.replicate k ' ' := by
  refine ⟨(l.reverse.takeWhile fun c => decide (c = ' ')).length, ?_⟩
  have h := List.takeWhile_append_dropWhile (fun c => decide (c = ' ')) l.reverse
  have hrep : (l.reverse.takeWhile fun c => decide (c = ' ')).reverse
      = List.replicate (l.reverse.takeWhile fun c => decide (c = ' ')).length ' ' := by
    apply List.eq_replicate_iff.mpr
    refine ⟨by simp, ?_⟩
    intro c hc
    have := List.mem_takeWhile_imp (List.mem_reverse.mp hc)
    simpa using this
  have h2 := congrArg List.reverse h
  rw [List.reverse_append, List.reverse_reverse] at h2
  rw [← hrep]
  exact h2.symm

theorem trim_ne_empty {s : String} (h : ¬ AllSpaces s) : trim s ≠ "" := by
  intro e
  apply h
  have hd : (s.data.rdropWhile fun c => decide (c = ' ')) = [] := by
    have := congrArg String.data e
    simpa [trim] using this
  intro c hc
  simpa using List.rdropWhile_eq_nil_iff.mp hd c hc

theorem noTrailingSpace_trim (s : String) : NoTrailingSpace (trim s) := by
  unfold NoTrailingSpace trim
  intro h
  have hne : (s.data.rdropWhile fun c => decide (c = ' ')) ≠ [] := by
    intro e; rw [e] at h; cases h
  rw [List.getLast?_eq_getLast _ hne] at h
  have hlast := List.rdropWhile_last_not (fun c => decide (c = ' ')) s.data hne
  apply hlast
  simpa using Option.some.inj h

theorem eq_trim_append_spaces (s : String) : ∃ k, s = trim s ++ spaces k := by
  obtain ⟨k, hk⟩ := eq_rdropWhile_append_replicate s.data
  refine ⟨k, ?_⟩
  apply String.ext
  simp only [String.data_append, trim, spaces]
  exact hk

theorem allSpaces_of_rtrim_empty {before : List Char} {l : String}
    (h : rtrim before l = some "") : AllSpaces l := by
  by_contra hn
  rw [rtrim_eq_trim_of (Or.inr hn)] at h
  exact trim_ne_empty hn (Option.some.inj h)

/-! ## The indices read by `rtrim` -/

theorem readsBelow_head (before : List Char) (p : Int) :
    (readsBelow before p).head? = some p := by
  cases before <;> simp [readsBelow]

theorem readsFrom_allSpaces (before : List Char) (s : List Char) (hs : ∀ c ∈ s, c = ' ') :
    ∀ k, k ≤ s.length → (-1 : Int) ∈ readsFrom before s k := by
  intro k
  induction k with
  | zero =>
    intro _
    have h := readsBelow_head before (-1)
    exact List.mem_of_mem_head? h
  | succ q ih =>
    intro hq
    have hq1 : q < s.length := hq
    have hc : cstrAt s q = ' ' := by
      have : cstrAt s q = s[q] := by
        simp [cstrAt, List.getD, List.getElem?_eq_getElem hq1]
      rw [this]
      exact hs _ (List.getElem_mem hq1)
    simp only [readsFrom, hc, if_true]
    exact List.mem_cons_of_mem _ (ih (Nat.le_of_lt hq1))

theorem readsFrom_inside (before : List Char) (s : List Char) :
    ∀ k, k ≤ s.length → (∃ c ∈ s.take k, c ≠ ' ') →
      ∀ p ∈ readsFrom before s k, 0 ≤ p ∧ p < (k : Int) := by
  intro k
  induction k with
  | zero => intro _ ⟨c, hc, _⟩; simp at hc
  | succ q ih =>
    intro hq h p hp
    have hq1 : q < s.length := hq
    have htake : s.take (q + 1) = s.take q ++ [s[q]] := by
      rw [List.take_succ, List.getElem?_eq_getElem hq1]; rfl
    have hc : cstrAt s q = s[q] := by
      simp [cstrAt, List.getD, List.getElem?_eq_getElem hq1]
    simp only [readsFrom, hc, List.mem_cons] at hp
    rcases hp with hp | hp
    · subst hp; omega
    · by_cases hsp : s[q] = ' '
      · rw [if_pos hsp] at hp
        obtain ⟨c, hmem, hne⟩ := h
        rw [htake, List.mem_append, List.mem_singleton] at hmem
        rcases hmem with hm | hm
        · have := ih (Nat.le_of_lt hq1) ⟨c, hm, hne⟩ p hp
          omega
        · exact absurd (hm.trans hsp) hne
      · rw [if_neg hsp] at hp
        simp at hp

/-- On a line with a character other than a space every index read by `rtrim`
lies inside the string. -/
theorem rtrimReads_inside (before : List Char) (s : String) (hs : ¬ AllSpaces s) :
    ∀ p ∈ rtrimReads before s, 0 ≤ p ∧ p < (s.data.length : Int) := by
  apply readsFrom_inside before s.data s.data.length (Nat.le_refl _)
  rw [List.take_length]
  simpa [AllSpaces] using hs

/-- The scan stops at the last index it reads. -/
theorem scanBelow_last (before : List Char) :
    ∀ (p r : Int), scanBelow before p = some r → (readsBelow before p).getLast? = some r := by
  induction before with
  | nil => intro p r h; simp [scanBelow] at h
  | cons c rest ih =>
    intro p r h
    by_cases hc : c = ' '
    · simp only [scanBelow, hc, if_true] at h
      have h2 := ih (p - 1) r h
      simp only [readsBelow, hc, if_true]
      cases hrb : readsBelow rest (p - 1) with
      | nil => rw [hrb] at h2; simp at h2
      | cons a l => rw [hrb] at h2; rw [List.getLast?_cons_cons]; exact h2
    · simp only [scanBelow, hc, if_false] at h
      simp [readsBelow, hc, ← Option.some.inj h]

theorem scanFrom_last (before : List Char) (s : List Char) :
    ∀ (k : Nat) (r : Int), scanFrom before s k = some r →
      (readsFrom before s k).getLast? = some r := by
  intro k
  induction k with
  | zero => intro r h; exact scanBelow_last before (-1) r h
  | succ q ih =>
    intro r h
    by_cases hc : cstrAt s q = ' '
    · simp only [scanFrom, hc, if_true] at h
      have h2 := ih r h
      simp only [readsFrom, hc, if_true]
      cases hrb : readsFrom before s q with
      | nil => rw [hrb] at h2; simp at h2
      | cons a l => rw [hrb] at h2; rw [List.getLast?_cons_cons]; exact h2
    · simp only [scanFrom, hc, if_false] at h
      simp [readsFrom, hc, ← Option.some.inj h]

/-! ## The loop head states of a run -/

/-- The run from a loop head is the end of the pass, or the run from the next
loop head. -/
theorem loop_eq_step (before : List Char) (s : State) :
    loop before s.ans s.ouf s.strAnswer s.n =
      match step before s with
      | .halt r => r
      | .next s' => loop before s'.ans s'.ouf s'.strAnswer s'.n := by
  obtain ⟨ans, ouf, sa, n⟩ := s
  cases ans with
  | nil => simp [step, loop]
  | cons j0 ans =>
    simp only [step, loop]
    cases rtrim before j0 with
    | none => rfl
    | some j =>
      simp only []
      by_cases hbrk : j = "" ∧ ans = []
      · simp only [if_pos hbrk]
      · simp only [if_neg hbrk]
        cases ouf with
        | nil => rfl
        | cons p ouf =>
          simp only []
          by_cases hjp : j ≠ p
          · simp only [if_pos hjp]
          · simp only [if_neg hjp]

theorem step_next {before : List Char} {s s' : State} (h : step before s = .next s') :
    s.ans.tail = s'.ans ∧ s.ouf.tail = s'.ouf ∧ s'.n = s.n + 1 ∧
    s.ans ≠ [] ∧ s.ouf ≠ [] := by
  obtain ⟨ans, ouf, sa, n⟩ := s
  cases ans with
  | nil => simp [step] at h
  | cons j0 ans =>
    simp only [step] at h
    cases hr : rtrim before j0 with
    | none => rw [hr] at h; cases h
    | some j =>
      rw [hr] at h
      simp only [] at h
      by_cases hbrk : j = "" ∧ ans = []
      · rw [if_pos hbrk] at h; cases h
      · rw [if_neg hbrk] at h
        cases ouf with
        | nil => cases h
        | cons p ouf =>
          simp only [] at h
          by_cases hjp : j ≠ p
          · rw [if_pos hjp] at h; cases h
          · rw [if_neg hjp] at h
            injection h with h
            subst h
            simp

theorem reach_run {before : List Char} {s0 s : State} (h : Reach before s0 s) :
    loop before s.ans s.ouf s.strAnswer s.n = loop before s0.ans s0.ouf s0.strAnswer s0.n := by
  induction h with
  | start => rfl
  | @pass t t' _ hs ih =>
    rw [← ih, loop_eq_step before t, hs]

theorem reach_lockstep {before : List Char} {R S : List String} {s : State}
    (h : Reach before ⟨R, S, "", 0⟩ s) :
    s.ans = R.drop s.n ∧ s.ouf = S.drop s.n ∧ s.n ≤ R.length ∧ s.n ≤ S.length := by
  induction h with
  | start => simp
  | pass _ hs ih =>
    obtain ⟨h1, h2, h3, h4, h5⟩ := step_next hs
    obtain ⟨i1, i2, i3, i4⟩ := ih
    rw [h3]
    rw [i1] at h1 h4
    rw [i2] at h2 h5
    refine ⟨?_, ?_, ?_, ?_⟩
    · rw [← h1, List.tail_drop]
    · rw [← h2, List.tail_drop]
    · have := List.drop_eq_nil_iff.not.mp h4
      omega
    · have := List.drop_eq_nil_iff.not.mp h5
      omega

/-! ## Trimming twice -/

theorem not_allSpaces_of_noTrailingSpace {s : String} (hs : NoTrailingSpace s)
    (hne : s ≠ "") : ¬ AllSpaces s := by
  intro hall
  have hd : s.data ≠ [] := by
    intro e
    apply hne
    apply String.ext
    rw [e]
  apply hs
  rw [List.getLast?_eq_getLast _ hd]
  congr 1
  exact hall _ (List.getLast_mem hd)

/-- When the byte before the buffer is not a space and the submission has at
least as many lines as the compared reference lines `R'` (`R` without its last
line when that line is empty after trimming), the run is Accepted exactly when
`rtrim(R'[i]) = S[i]` for every `i < length R'`, it is WrongAnswer otherwise, and
an Accepted run ends with the counter `n = length R'`. -/
theorem compare_accepted_iff (before : List Char) (hb : StopsBelow before)
    (R S : List String) (hlen : (comparedLines before R).length ≤ S.length) :
    ((compare before R S).isAccepted ↔
      ∀ i, i < (comparedLines before R).length →
        MatchesAt before (comparedLines before R) S i) ∧
    (¬ (∀ i, i < (comparedLines before R).length →
        MatchesAt before (comparedLines before R) S i) →
      (compare before R S).isWrongAnswer) ∧
    ((compare before R S).isAccepted →
      (compare before R S).n = (comparedLines before R).length) := by
  unfold compare
  refine ⟨⟨fun h => (endsAccepted_of_accepted h).1,
    fun h => ⟨_, (endsAccepted_of_matches "" 0 h).2.1⟩⟩, ?_, ?_⟩
  · intro hno
    rcases loop_cases before R S "" 0 with hA | ⟨k, r, j, p, _, _, _, _, _, _, hW⟩ |
        ⟨h1, _, _⟩ | ⟨k, hF⟩
    · exact absurd hA.1 hno
    · exact ⟨_, by rw [hW]⟩
    · omega
    · exact absurd hF (not_fault_of_stopsBelow hb R S k _)
  · intro h
    have := (endsAccepted_of_accepted h).2.2.1
    simpa using this

/-- The same at `R = ["a", "b", ""]`, `S = ["a", "b"]`. -/
theorem compare_accepted_iff_witness :
    StopsBelow ['\x00'] ∧
    (comparedLines ['\x00'] ["a", "b", ""]).length ≤ ["a", "b"].length ∧
    (((compare ['\x00'] ["a", "b", ""] ["a", "b"]).isAccepted ↔
      ∀ i, i < (comparedLines ['\x00'] ["a", "b", ""]).length →
        MatchesAt ['\x00'] (comparedLines ['\x00'] ["a", "b", ""]) ["a", "b"] i) ∧
    (¬ (∀ i, i < (comparedLines ['\x00'] ["a", "b", ""]).length →
        MatchesAt ['\x00'] (comparedLines ['\x00'] ["a", "b", ""]) ["a", "b"] i) →
      (compare ['\x00'] ["a", "b", ""] ["a", "b"]).isWrongAnswer) ∧
    ((compare ['\x00'] ["a", "b", ""] ["a", "b"]).isAccepted →
      (compare ['\x00'] ["a", "b", ""] ["a", "b"]).n
        = (comparedLines ['\x00'] ["a", "b", ""]).length)) :=
  ⟨⟨'\x00', [], rfl, by decide⟩, by decide,
    compare_accepted_iff ['\x00'] ⟨'\x00', [], rfl, by decide⟩ ["a", "b", ""] ["a", "b"]
      (by decide)⟩

/-- C2: a WrongAnswer run reports the 1-based index `n` of the first line at
which `rtrim(R[i])` differs from `S[i]` (every line before it matches), and its
message is `"<n><ordinal-suffix> lines differ - expected: '<E>', found: '<A>'"`,
`E` and `A` being the compressed forms, as printed, of `rtrim(R[n-1])` and of the
untrimmed `S[n-1]`. -/
theorem compare_wrongAnswer (before : List Char) (R S : List String) (m : String)
    (h : (compare before R S).exit = .wrongAnswer m) :
    ∃ r j p, 1 ≤ (compare before R S).n ∧
      R[(compare before R S).n - 1]? = some r ∧ S[(compare before R S).n - 1]? = some p ∧
      rtrim before r = some j ∧ j ≠ p ∧
      (∀ i, i < (compare before R S).n - 1 → MatchesAt before R S i) ∧
      m = toString (compare before R S).n ++ englishEnding (compare before R S).n
        ++ " lines differ - expected: '" ++ c_str (compress j)
        ++ "', found: '" ++ c_str (compress p) ++ "'" := by
  obtain ⟨r, j, p, h1, h2, h3, h4, h5, h6, h7⟩ := wrongAnswer_position before R S m h
  exact ⟨r, j, p, h1, h2, h3, h4, h5, h6, by rw [h7]; rfl⟩

/-- C2, at `R = ["abc", "xyz"]`, `S = ["abc", "def"]`: the message is
`2nd lines differ - expected: 'xyz', found: 'def'`. -/
theorem compare_wrongAnswer_witness :
    (compare ['\x00'] ["abc", "xyz"] ["abc", "def"]).exit
      = .wrongAnswer "2nd lines differ - expected: 'xyz', found: 'def'" ∧
    (compare ['\x00'] ["abc", "xyz"] ["abc", "def"]).n = 2 ∧
    ∃ r j p, 1 ≤ (compare ['\x00'] ["abc", "xyz"] ["abc", "def"]).n ∧
      ["abc", "xyz"][(compare ['\x00'] ["abc", "xyz"] ["abc", "def"]).n - 1]? = some r ∧
      ["abc", "def"][(compare ['\x00'] ["abc", "xyz"] ["abc", "def"]).n - 1]? = some p ∧
      rtrim ['\x00'] r = some j ∧ j ≠ p ∧
      (∀ i, i < (compare ['\x00'] ["abc", "xyz"] ["abc", "def"]).n - 1 →
        MatchesAt ['\x00'] ["abc", "xyz"] ["abc", "def"] i) ∧
      "2nd lines differ - expected: 'xyz', found: 'def'"
        = toString (compare ['\x00'] ["abc", "xyz"] ["abc", "def"]).n
          ++ englishEnding (compare ['\x00'] ["abc", "xyz"] ["abc", "def"]).n
          ++ " lines differ - expected: '" ++ c_str (compress j)
          ++ "', found: '" ++ c_str (compress p) ++ "'" :=
  ⟨by decide, by decide,
    compare_wrongAnswer ['\x00'] ["abc", "xyz"] ["abc", "def"] _ (by decide)⟩

/-- When the byte before the buffer is not a space, a blank line `b` (empty or
spaces only) appended to a reference `R` that
is empty or whose last line is not empty after trimming changes nothing: the
verdict and its message, the counter `n`, and the submission lines read are
those of the run on `R`. -/
theorem compare_append_blank (before : List Char) (hb : StopsBelow before)
    (R S : List String) (b : String)
    (hR : ∀ l, R.getLast? = some l → rtrim before l ≠ some "") (hblank : AllSpaces b) :
    (compare before (R ++ [b]) S).exit = (compare before R S).exit ∧
    (compare before (R ++ [b]) S).n = (compare before R S).n ∧
    (compare before (R ++ [b]) S).ouf = (compare before R S).ouf ∧
    (compare before (R ++ [b]) S).linesRead S = (compare before R S).linesRead S := by
  obtain ⟨h1, h2, _, h4⟩ := loop_append_blank (rtrim_blank hb hblank) R S "" 0 hR
  exact ⟨h1, h2, h4, by unfold Run.linesRead compare; rw [h4]⟩

/-- The same at `R = ["a", "b"]`, `b = ""`, `S = ["a", "b"]`: Accepted with `2 lines`. -/
theorem compare_append_blank_witness :
    (compare ['\x00'] (["a", "b"] ++ [""]) ["a", "b"]).exit = .accepted "2 lines" ∧
    (compare ['\x00'] (["a", "b"] ++ [""]) ["a", "b"]).exit
      = (compare ['\x00'] ["a", "b"] ["a", "b"]).exit ∧
    (compare ['\x00'] (["a", "b"] ++ [""]) ["a", "b"]).n
      = (compare ['\x00'] ["a", "b"] ["a", "b"]).n ∧
    (compare ['\x00'] (["a", "b"] ++ [""]) ["a", "b"]).ouf
      = (compare ['\x00'] ["a", "b"] ["a", "b"]).ouf ∧
    (compare ['\x00'] (["a", "b"] ++ [""]) ["a", "b"]).linesRead ["a", "b"]
      = (compare ['\x00'] ["a", "b"] ["a", "b"]).linesRead ["a", "b"] :=
  ⟨by decide,
    compare_append_blank ['\x00'] ⟨'\x00', [], rfl, by decide⟩ ["a", "b"] ["a", "b"] ""
      (by intro l hl; cases hl; decide) (by decide)⟩

/-- Trailing spaces on a reference line that is not blank never cause a
mismatch, and none do when the byte before the buffer is not a space.  For a line
`s` that does not end in a space and `k ≥ 0`, `rtrim` turns `s` followed by `k`
spaces into `s`; at a position `i` where the reference line is `s` followed by
`k` spaces and the submission line is `s` the lines match, no WrongAnswer is
reported at that position, and the run is Accepted when every other compared
position matches.  (When `s` is empty the reference line is blank and its scan
reads the byte before the buffer, which is then required not to be a space.) -/
theorem compare_reference_spaces (before : List Char) (s : String) (k : Nat)
    (hs : NoTrailingSpace s) (hb : StopsBelow before ∨ s ≠ "") :
    rtrim before (s ++ spaces k) = some s ∧
    ∀ (R S : List String) (i : Nat), R[i]? = some (s ++ spaces k) → S[i]? = some s →
      MatchesAt before R S i ∧
      ((compare before R S).isWrongAnswer → (compare before R S).n ≠ i + 1) ∧
      ((∀ i', i' < (comparedLines before R).length → i' ≠ i →
          MatchesAt before (comparedLines before R) S i') →
        (compare before R S).isAccepted) := by
  have hrt : rtrim before (s ++ spaces k) = some s := by
    rw [rtrim_eq_trim_of (hb.imp id (not_allSpaces_append hs k)), trim_append_spaces hs]
  refine ⟨hrt, ?_⟩
  intro R S i hR hS
  have hm : MatchesAt before R S i := ⟨_, _, hR, hS, hrt⟩
  refine ⟨hm, ?_, ?_⟩
  · rintro ⟨m, hw⟩ hn
    obtain ⟨r, j, p, _, h2, h3, h4, h5, _, _⟩ := wrongAnswer_position before R S m hw
    rw [hn, Nat.add_sub_cancel] at h2 h3
    rw [hR] at h2; rw [hS] at h3
    cases h2; cases h3
    rw [hrt] at h4
    exact h5 (Option.some.inj h4).symm
  · intro hothers
    unfold compare
    refine ⟨_, (endsAccepted_of_matches "" 0 ?_).2.1⟩
    intro i' hi'
    by_cases e : i' = i
    · subst e
      exact (matchesAt_compared hi').mpr hm
    · exact hothers i' hi' e

/-- The same at `R = ["abc", "def "]`, `S = ["abc", "def"]`: Accepted with `2 lines`. -/
theorem compare_reference_spaces_witness :
    (compare ['\x00'] ["abc", "def" ++ spaces 1] ["abc", "def"]).exit = .accepted "2 lines" ∧
    "def" ++ spaces 1 = "def " ∧
    NoTrailingSpace "def" ∧
    rtrim ['\x00'] ("def" ++ spaces 1) = some "def" ∧
    ∀ (R S : List String) (i : Nat), R[i]? = some ("def" ++ spaces 1) → S[i]? = some "def" →
      MatchesAt ['\x00'] R S i ∧
      ((compare ['\x00'] R S).isWrongAnswer → (compare ['\x00'] R S).n ≠ i + 1) ∧
      ((∀ i', i' < (comparedLines ['\x00'] R).length → i' ≠ i →
          MatchesAt ['\x00'] (comparedLines ['\x00'] R) S i') →
        (compare ['\x00'] R S).isAccepted) :=
  ⟨by decide, by decide, by decide,
    compare_reference_spaces ['\x00'] "def" 1 (by decide) (Or.inr (by decide))⟩

/-- C5 as stated fails at the last position of the reference when the reference
line there is empty: `R = [""]`, `S = [" "]`, `i = 0`, `r = ""`, `k = 1` is
Accepted with `0 lines`.  It also fails, through the read of `rtrim` before the
buffer, at an empty reference line that is not the last one when the scan does
not stop: `R = ["", "a"]`, `S = [" ", "a"]` then ends in neither verdict. -/
theorem compare_submission_spaces_counterexample :
    (StopsBelow ['\x00'] ∧ [""][0]? = some "" ∧ NoTrailingSpace "" ∧ 1 ≤ 1 ∧
      [" "][0]? = some ("" ++ spaces 1) ∧
      (∀ i', i' < 0 → MatchesAt ['\x00'] [""] [" "] i') ∧
      (compare ['\x00'] [""] [" "]).exit = .accepted "0 lines" ∧
      ¬ (compare ['\x00'] [""] [" "]).isWrongAnswer) ∧
    (["", "a"][0]? = some "" ∧ 0 + 1 < ["", "a"].length ∧
      [" ", "a"][0]? = some ("" ++ spaces 1) ∧
      (∀ i', i' < 0 → MatchesAt [] ["", "a"] [" ", "a"] i') ∧
      (compare [] ["", "a"] [" ", "a"]).exit = .fault ∧
      ¬ (compare [] ["", "a"] [" ", "a"]).isWrongAnswer) := by
  refine ⟨⟨⟨'\x00', [], rfl, by decide⟩, by decide, by decide, by decide, by decide, ?_,
    by decide, ?_⟩, by decide, by decide, by decide, ?_, by decide, ?_⟩
  · intro i' hi'; omega
  · rintro ⟨m, hm⟩
    have h : (compare ['\x00'] [""] [" "]).exit = .accepted "0 lines" := by decide
    rw [h] at hm
    cases hm
  · intro i' hi'; omega
  · rintro ⟨m, hm⟩
    have h : (compare [] ["", "a"] [" ", "a"]).exit = .fault := by decide
    rw [h] at hm
    cases hm

/-- C5, amended: at a position `i` before which every line matches, where the
reference line `r` has no trailing space and is not the ignored blank last line
(`r` is not empty, or `i` is not the last position of `R`), and where `rtrim`
returns the empty string on `r` when `r` is empty, a submission line `r`
followed by `k ≥ 1` spaces gives WrongAnswer, reported at position `i + 1`. -/
theorem compare_submission_spaces (before : List Char) (R S : List String) (i k : Nat)
    (r : String) (hR : R[i]? = some r) (hr : NoTrailingSpace r)
    (hpos : r ≠ "" ∨ i + 1 < R.length) (hret : r = "" → rtrim before r = some "")
    (hk : 1 ≤ k) (hS : S[i]? = some (r ++ spaces k))
    (hbefore : ∀ i', i' < i → MatchesAt before R S i') :
    (compare before R S).isWrongAnswer ∧ (compare before R S).n = i + 1 := by
  have hrr : rtrim before r = some r := by
    by_cases he : r = ""
    · rw [hret he, he]
    · rw [rtrim_eq_trim_of (Or.inr (not_allSpaces_of_noTrailingSpace hr he)),
        trim_of_noTrailingSpace hr]
  have hno : ¬ MatchesAt before R S i := by
    rintro ⟨r', p', e1, e2, e3⟩
    rw [hR] at e1; rw [hS] at e2
    cases e1; cases e2
    rw [hrr] at e3
    exact append_spaces_ne hk (Option.some.inj e3)
  have hi : i < (comparedLines before R).length := by
    rcases hpos with h | h
    · apply lt_compared_of_ne_blank hR
      rw [hrr]
      intro e; exact h (Option.some.inj e)
    · have := compared_length_ge before R
      omega
  have hiS : i < S.length := by
    rcases Nat.lt_or_ge i S.length with h | h
    · exact h
    · rw [List.getElem?_eq_none h] at hS; cases hS
  unfold compare
  rcases loop_cases before R S "" 0 with hA | ⟨k', r', j, p, _, h2, h3, h4, h5, h6, hW⟩ |
      ⟨_, h2, _⟩ | ⟨k', r', h1, h2, _, h4, _⟩
  · exact absurd ((matchesAt_compared hi).mp (hA.1 i hi)) hno
  · have hk' : k' = i := by
      rcases Nat.lt_trichotomy k' i with h | h | h
      · exfalso
        obtain ⟨r'', p'', e1, e2, e3⟩ := hbefore k' h
        rw [h2] at e1; rw [h3] at e2
        cases e1; cases e2
        rw [h4] at e3
        exact h5 (Option.some.inj e3)
      · exact h
      · exact absurd (h6 i h) hno
    rw [hW]
    exact ⟨⟨_, rfl⟩, by simp [hk']⟩
  · exact absurd (h2 i hiS) hno
  · exfalso
    rcases Nat.lt_trichotomy k' i with h | h | h
    · obtain ⟨r'', p'', e1, _, e3⟩ := hbefore k' h
      rw [h1] at e1
      cases e1
      rw [h2] at e3; cases e3
    · subst h
      rw [hR] at h1
      cases h1
      rw [hrr] at h2; cases h2
    · exact hno (h4 i h)

/-- C5, amended, at `R = ["a"]`, `S = ["a "]`. -/
theorem compare_submission_spaces_witness :
    "a" ++ spaces 1 = "a " ∧
    (compare ['\x00'] ["a"] ["a" ++ spaces 1]).isWrongAnswer ∧
    (compare ['\x00'] ["a"] ["a" ++ spaces 1]).n = 0 + 1 :=
  ⟨by decide,
    compare_submission_spaces ['\x00'] ["a"] ["a" ++ spaces 1] 0 1 "a" (by decide) (by decide)
      (Or.inl (by decide)) (fun h => absurd h (by decide)) (by decide) (by decide)
      (by intro i' hi'; omega)⟩

/-- C6 as stated fails when the sequence ends in two blank lines: on
`L = ["a", "", ""]` the run is Accepted with `n = 2`, and `L` without the blank
lines at its end has one line.  It also fails, through the read of `rtrim` before
the buffer, on `L = [""]` when the scan does not stop: the run then ends in no
verdict. -/
theorem compare_self_counterexample :
    ((∀ l ∈ ["a", "", ""], NoTrailingSpace l) ∧
      (compare ['\x00'] ["a", "", ""] ["a", "", ""]).exit = .accepted "2 lines" ∧
      (compare ['\x00'] ["a", "", ""] ["a", "", ""]).n = 2 ∧
      (withoutTrailingBlanks ["a", "", ""]).length = 1) ∧
    ((∀ l ∈ [""], NoTrailingSpace l) ∧ (compare [] [""] [""]).exit = .fault) := by
  refine ⟨⟨by decide, by decide, by decide, by decide⟩, by decide, by decide⟩

/-- C6, amended: for a sequence `L` none of whose lines ends in a space, with
`rtrim` returning the empty string on the empty line when `L` has one,
`compare(L, L)` is Accepted with `n` the length of `L` once its last line is
dropped if that line is blank (one line at most is dropped). -/
theorem compare_self (before : List Char) (L : List String)
    (hL : ∀ l ∈ L, NoTrailingSpace l) (hret : "" ∈ L → rtrim before "" = some "") :
    (compare before L L).isAccepted ∧
    (compare before L L).n = (comparedLines before L).length := by
  have hrr : ∀ l ∈ L, rtrim before l = some l := by
    intro l hl
    by_cases he : l = ""
    · subst he; exact hret hl
    · rw [rtrim_eq_trim_of (Or.inr (not_allSpaces_of_noTrailingSpace (hL l hl) he)),
        trim_of_noTrailingSpace (hL l hl)]
  have hall : ∀ i, i < (comparedLines before L).length →
      MatchesAt before (comparedLines before L) L i := by
    intro i hi
    apply (matchesAt_compared hi).mpr
    have hiL : i < L.length := Nat.lt_of_lt_of_le hi (comparedLines_length_le before L)
    exact ⟨L[i], L[i], List.getElem?_eq_getElem hiL, List.getElem?_eq_getElem hiL,
      hrr _ (List.getElem_mem hiL)⟩
  have h := @endsAccepted_of_matches before L L "" 0 hall
  exact ⟨⟨_, h.2.1⟩, by simpa [compare] using h.2.2.1⟩

/-- C6, amended, at `L = ["a", "", ""]`: Accepted with `n = 2`. -/
theorem compare_self_witness :
    (comparedLines ['\x00'] ["a", "", ""]).length = 2 ∧
    rtrim ['\x00'] "" = some "" ∧
    (compare ['\x00'] ["a", "", ""] ["a", "", ""]).isAccepted ∧
    (compare ['\x00'] ["a", "", ""] ["a", "", ""]).n
      = (comparedLines ['\x00'] ["a", "", ""]).length :=
  ⟨by decide, by decide,
    compare_self ['\x00'] ["a", "", ""] (by decide) (fun _ => by decide)⟩

/-- C7 as stated fails for a reference whose only line is blank: `R = [""]`,
`S = [""]` (the submission line equals the trimmed reference line) is Accepted
with `0 lines`, not with `single line: ''`. -/
theorem compare_single_counterexample :
    [""].length = 1 ∧ rtrim ['\x00'] "" = some "" ∧
    (compare ['\x00'] [""] [""]).exit = .accepted "0 lines" ∧
    (compare ['\x00'] [""] [""]).exit
      ≠ .accepted ("single line: '" ++ c_str (compress "") ++ "'") := by
  refine ⟨by decide, by decide, by decide, by decide⟩

/-- C7, amended: for a reference of one line that is not empty after trimming
and a submission whose first line equals the trimmed reference line, the run is
Accepted with the message `single line: '<content>'`, the content being the
compressed form, as printed, of the trimmed reference line. -/
theorem compare_single (before : List Char) (r p : String) (S : List String)
    (hr : rtrim before r = some p) (hp : p ≠ "") :
    (compare before [r] (p :: S)).exit
      = .accepted ("single line: '" ++ c_str (compress p) ++ "'") ∧
    (compare before [r] (p :: S)).n = 1 := by
  have hne : ¬(p = "" ∧ ([] : List String) = []) := fun h => hp h.1
  unfold compare
  rw [loop_equal hr hne, loop_nil]
  exact ⟨rfl, rfl⟩

/-- C7, amended, at `R = ["only line"]`, `S = ["only line"]`: the message is
`single line: 'only line'`. -/
theorem compare_single_witness :
    (compare ['\x00'] ["only line"] ["only line"]).exit
      = .accepted "single line: 'only line'" ∧
    ((compare ['\x00'] ["only line"] ("only line" :: [])).exit
      = .accepted ("single line: '" ++ c_str (compress "only line") ++ "'") ∧
    (compare ['\x00'] ["only line"] ("only line" :: [])).n = 1) :=
  ⟨by decide, compare_single ['\x00'] "only line" "only line" [] (by decide) (by decide)⟩

/-- C8 as stated fails for a reference that ends in a blank line: `R = ["a", "b", ""]`
has length 3 and every line matches `S = ["a", "b", ""]`, yet the message is
`2 lines`. -/
theorem compare_count_counterexample :
    ["a", "b", ""].length = 3 ∧
    (∀ i, i < 3 → MatchesAt ['\x00'] ["a", "b", ""] ["a", "b", ""] i) ∧
    (compare ['\x00'] ["a", "b", ""] ["a", "b", ""]).exit = .accepted "2 lines" ∧
    (compare ['\x00'] ["a", "b", ""] ["a", "b", ""]).exit ≠ .accepted (toString 3 ++ " lines") := by
  refine ⟨by decide, ?_, by decide, by decide⟩
  intro i hi
  have h : i = 0 ∨ i = 1 ∨ i = 2 := by omega
  rcases h with h | h | h <;> subst h
  · exact ⟨"a", "a", by decide, by decide, by decide⟩
  · exact ⟨"b", "b", by decide, by decide, by decide⟩
  · exact ⟨"", "", by decide, by decide, by decide⟩

/-- C8, amended: when the compared lines of the reference (the reference without
its last line when that line is empty after trimming) number `k > 1` and all
match the submission, the run is Accepted with the message `<k> lines`. -/
theorem compare_count (before : List Char) (R S : List String)
    (hk : 1 < (comparedLines before R).length)
    (hall : ∀ i, i < (comparedLines before R).length →
      MatchesAt before (comparedLines before R) S i) :
    (compare before R S).exit
      = .accepted (toString (comparedLines before R).length ++ " lines") := by
  have h := (@endsAccepted_of_matches before R S "" 0 hall).2.1
  unfold compare
  rw [h, Nat.zero_add, okMessage, if_neg (by omega)]

/-- C8, amended, at `R = ["a", "b", ""]`, `S = ["a", "b"]`: the message is `2 lines`. -/
theorem compare_count_witness :
    (comparedLines ['\x00'] ["a", "b", ""]).length = 2 ∧
    (compare ['\x00'] ["a", "b", ""] ["a", "b"]).exit
      = .accepted (toString (comparedLines ['\x00'] ["a", "b", ""]).length ++ " lines") :=
  ⟨by decide,
    compare_count ['\x00'] ["a", "b", ""] ["a", "b"] (by decide) (by
      intro i hi
      have h2 : (comparedLines ['\x00'] ["a", "b", ""]) = ["a", "b"] := by decide
      rw [h2] at hi ⊢
      have h : i = 0 ∨ i = 1 := by simp at hi; omega
      rcases h with h | h <;> subst h
      · exact ⟨"a", "a", by decide, by decide, by decide⟩
      · exact ⟨"b", "b", by decide, by decide, by decide⟩)⟩

/-- C9: lines added at the end of the submission are ignored: when the run on `S`
ends in a verdict, the run on `S ++ E` ends in the same verdict with the same
message (and the same counter). -/
theorem compare_extra_lines (before : List Char) (R S E : List String)
    (hv : (compare before R S).isAccepted ∨ (compare before R S).isWrongAnswer) :
    (compare before R (S ++ E)).exit = (compare before R S).exit ∧
    (compare before R (S ++ E)).n = (compare before R S).n :=
  loop_append_extra before E R S "" 0 hv

/-- C9, at `R = ["a", "b"]`, `S = ["a", "b"]`, `E = ["c"]`. -/
theorem compare_extra_lines_witness :
    (compare ['\x00'] ["a", "b"] ["a", "b"]).exit = .accepted "2 lines" ∧
    (compare ['\x00'] ["a", "b"] (["a", "b"] ++ ["c"])).exit
      = (compare ['\x00'] ["a", "b"] ["a", "b"]).exit ∧
    (compare ['\x00'] ["a", "b"] (["a", "b"] ++ ["c"])).n
      = (compare ['\x00'] ["a", "b"] ["a", "b"]).n :=
  ⟨by decide,
    compare_extra_lines ['\x00'] ["a", "b"] ["a", "b"] ["c"] (Or.inl ⟨"2 lines", by decide⟩)⟩

/-- When the byte before the buffer is not a space and the submission matches
the first `length S` compared reference
lines and the reference has a further compared line, the run ends in the
end-of-stream error of the submission read, and in neither verdict. -/
theorem compare_submission_exhausted (before : List Char) (hb : StopsBelow before)
    (R S : List String) (hlen : S.length < (comparedLines before R).length)
    (hall : ∀ i, i < S.length → MatchesAt before (comparedLines before R) S i) :
    (compare before R S).exit = .unexpectedEof ∧
    ¬ (compare before R S).isAccepted ∧ ¬ (compare before R S).isWrongAnswer := by
  have hexit : (compare before R S).exit = .unexpectedEof := by
    unfold compare
    rcases loop_cases before R S "" 0 with hA | ⟨k, r, j, p, h1, _, h3, h4, h5, _, _⟩ |
        ⟨_, _, r, j, _, _, hE⟩ | ⟨k, hF⟩
    · exfalso
      obtain ⟨_, _, _, e2, _⟩ := hA.1 S.length hlen
      simp at e2
    · exfalso
      have hk : k < S.length := by
        rcases Nat.lt_or_ge k S.length with h | h
        · exact h
        · rw [List.getElem?_eq_none h] at h3; cases h3
      obtain ⟨r', p', e1, e2, e3⟩ := hall k hk
      rw [h1] at e1; rw [h3] at e2
      cases e1; cases e2
      rw [h4] at e3
      exact h5 (Option.some.inj e3)
    · rw [hE]
    · exact absurd hF (not_fault_of_stopsBelow hb R S k _)
  refine ⟨hexit, ?_, ?_⟩
  · rintro ⟨m, hm⟩; rw [hexit] at hm; cases hm
  · rintro ⟨m, hm⟩; rw [hexit] at hm; cases hm

/-- The same at `R = ["a", "b"]`, `S = ["a"]`. -/
theorem compare_submission_exhausted_witness :
    (compare ['\x00'] ["a", "b"] ["a"]).exit = .unexpectedEof ∧
    ¬ (compare ['\x00'] ["a", "b"] ["a"]).isAccepted ∧
    ¬ (compare ['\x00'] ["a", "b"] ["a"]).isWrongAnswer :=
  compare_submission_exhausted ['\x00'] ⟨'\x00', [], rfl, by decide⟩ ["a", "b"] ["a"]
    (by decide) (by
      intro i hi
      have h : i = 0 := by simp at hi; omega
      subst h
      exact ⟨"a", "a", by decide, by decide, by decide⟩)

/-- C11: on a line `s` with a character other than a space, `rtrim` removes the
trailing spaces and nothing else: `s` is `rtrim(s)` followed by `k` spaces for
some `k`, `rtrim(s)` is not empty and its last character is not a space; a line
whose last character is not a space (a tab, any other character) is returned
whole.  This holds whatever the memory before the buffer contains. -/
theorem rtrim_removes_trailing_spaces (before : List Char) (s : String)
    (hs : ¬ AllSpaces s) :
    (∃ t k, rtrim before s = some t ∧ s = t ++ spaces k ∧ t ≠ "" ∧ NoTrailingSpace t) ∧
    (NoTrailingSpace s → rtrim before s = some s) := by
  have hrt := @rtrim_eq_trim_of before s (Or.inr hs)
  refine ⟨?_, ?_⟩
  · obtain ⟨k, hk⟩ := eq_trim_append_spaces s
    exact ⟨trim s, k, hrt, hk, trim_ne_empty hs, noTrailingSpace_trim s⟩
  · intro hn
    rw [hrt, trim_of_noTrailingSpace hn]

/-- C11, at `s = "ab\t  "` (a tab followed by two spaces): the spaces go, the tab
stays. -/
theorem rtrim_removes_trailing_spaces_witness :
    rtrim [] "ab\t  " = some "ab\t" ∧
    ((∃ t k, rtrim [] "ab\t  " = some t ∧ "ab\t  " = t ++ spaces k ∧ t ≠ "" ∧
        NoTrailingSpace t) ∧
      (NoTrailingSpace "ab\t  " → rtrim [] "ab\t  " = some "ab\t  ")) :=
  ⟨by decide, rtrim_removes_trailing_spaces [] "ab\t  " (by decide)⟩

/-- On a line that is empty or made of spaces only, `rtrim` returns the
empty string, provided the byte before the buffer (read by the scan at index
`-1`) is not a space. -/
theorem rtrim_blank_line (before : List Char) (hb : StopsBelow before) (s : String)
    (hs : AllSpaces s) : rtrim before s = some "" :=
  rtrim_blank hb hs

/-- The same at the empty line and at a line of three spaces. -/
theorem rtrim_blank_line_witness :
    rtrim ['\x00'] "" = some "" ∧ rtrim ['\x00'] "   " = some "" :=
  ⟨rtrim_blank_line ['\x00'] ⟨'\x00', [], rfl, by decide⟩ "" (by decide),
    rtrim_blank_line ['\x00'] ⟨'\x00', [], rfl, by decide⟩ "   " (by decide)⟩

/-- C13: the position in the WrongAnswer message, `n` followed by
`englishEnding(n)`, reads `1st`, `2nd`, `3rd`, `4th`, `11th`, `21st` for
`n = 1, 2, 3, 4, 11, 21`; a difference on the first line is reported as
`1st lines differ`. -/
theorem ordinal_suffix_rendering :
    toString 1 ++ englishEnding 1 = "1st" ∧
    toString 2 ++ englishEnding 2 = "2nd" ∧
    toString 3 ++ englishEnding 3 = "3rd" ∧
    toString 4 ++ englishEnding 4 = "4th" ∧
    toString 11 ++ englishEnding 11 = "11th" ∧
    toString 21 ++ englishEnding 21 = "21st" ∧
    waMessage 1 "x" "y" = "1st lines differ - expected: 'x', found: 'y'" ∧
    waMessage 21 "x" "y" = "21st lines differ - expected: 'x', found: 'y'" ∧
    (compare [] ["x"] ["y"]).exit
      = .wrongAnswer "1st lines differ - expected: 'x', found: 'y'" := by
  refine ⟨by decide, by decide, by decide, by decide, by decide, by decide, by decide,
    by decide, by decide⟩

/-- C16 fails on the code: on every line that is empty or made of spaces only,
the scan of `rtrim` reads index `-1`, outside the string, whatever the memory
before the buffer contains; so not every index read lies in `0 .. size(s)`. -/
theorem rtrim_reads_before_buffer (before : List Char) (s : String) (hs : AllSpaces s) :
    (-1 : Int) ∈ rtrimReads before s ∧
    ¬ (∀ p ∈ rtrimReads before s, 0 ≤ p ∧ p ≤ (s.data.length : Int)) := by
  have h : (-1 : Int) ∈ rtrimReads before s :=
    readsFrom_allSpaces before s.data hs s.data.length (Nat.le_refl _)
  refine ⟨h, ?_⟩
  intro hall
  have := (hall (-1) h).1
  omega

/-- C16, at the empty line and at a line of two spaces: the first read of
`rtrim("")` is at index `-1`; with a space before the buffer the scan goes on to
index `-2`. -/
theorem rtrim_reads_before_buffer_witness :
    rtrimReads ['\x00'] "" = [-1] ∧
    rtrimReads ['\x00'] "  " = [1, 0, -1] ∧
    rtrimReads [' ', 'x'] "" = [-1, -2] ∧
    ((-1 : Int) ∈ rtrimReads ['\x00'] "" ∧
      ¬ (∀ p ∈ rtrimReads ['\x00'] "", 0 ≤ p ∧ p ≤ (("" : String).data.length : Int))) :=
  ⟨by decide, by decide, by decide, rtrim_reads_before_buffer ['\x00'] "" (by decide)⟩

/-- C14: lockstep consumption.  Each time the loop head is reached, the number of
reference lines read and the number of submission lines read both equal `n`.  A
WrongAnswer run has read exactly `n` reference lines and `n` submission lines.
An Accepted run has read exactly `n` submission lines, and `n` reference lines,
or `n + 1` when the last line read is the ignored blank last line. -/
theorem lockstep_consumption (before : List Char) (R S : List String) :
    (∀ s, Reach before ⟨R, S, "", 0⟩ s →
      R.length - s.ans.length = s.n ∧ S.length - s.ouf.length = s.n ∧
      loop before s.ans s.ouf s.strAnswer s.n = compare before R S) ∧
    ((compare before R S).isWrongAnswer →
      R.length - (compare before R S).ans.length = (compare before R S).n ∧
      (compare before R S).linesRead S = (compare before R S).n) ∧
    ((compare before R S).isAccepted →
      (compare before R S).linesRead S = (compare before R S).n ∧
      (R.length - (compare before R S).ans.length = (compare before R S).n ∨
        (R.length - (compare before R S).ans.length = (compare before R S).n + 1 ∧
          ∃ l, R.getLast? = some l ∧ rtrim before l = some ""))) := by
  refine ⟨?_, ?_, ?_⟩
  · intro s hs
    obtain ⟨h1, h2, h3, h4⟩ := reach_lockstep hs
    refine ⟨?_, ?_, reach_run hs⟩
    · rw [h1, List.length_drop]; omega
    · rw [h2, List.length_drop]; omega
  · intro hw
    unfold compare at hw ⊢
    obtain ⟨k, r, j, p, _, h2, h3, _, _, _, h7⟩ := endsWrong_of_wrong hw
    have hkR : k < R.length := by
      rcases Nat.lt_or_ge k R.length with h | h
      · exact h
      · rw [List.getElem?_eq_none h] at h2; cases h2
    have hkS : k < S.length := by
      rcases Nat.lt_or_ge k S.length with h | h
      · exact h
      · rw [List.getElem?_eq_none h] at h3; cases h3
    rw [h7]
    simp only [Run.linesRead, List.length_drop]
    omega
  · intro ha
    unfold compare at ha ⊢
    obtain ⟨h1, _, h3, _, h5, h6⟩ := endsAccepted_of_accepted ha
    have hle : (comparedLines before R).length ≤ S.length := by
      rcases Nat.eq_zero_or_pos (comparedLines before R).length with h | h
      · omega
      · obtain ⟨_, _, _, e2, _⟩ := h1 ((comparedLines before R).length - 1) (by omega)
        rcases Nat.lt_or_ge ((comparedLines before R).length - 1) S.length with h' | h'
        · omega
        · rw [List.getElem?_eq_none h'] at e2; cases e2
    refine ⟨?_, ?_⟩
    · simp only [Run.linesRead, h6, h3, List.length_drop]
      omega
    · rw [h5, h3]
      rcases comparedLines_eq_or before R with e | ⟨l, e, hl⟩
      · left; rw [e]; simp
      · right
        refine ⟨?_, l, ?_, hl⟩
        · conv_lhs => rw [e]
          simp
        · rw [e]; simp

/-- C14, at `R = ["a", "b", ""]`, `S = ["a", "b", "c"]`: Accepted with `n = 2`, two
submission lines and three reference lines read. -/
theorem lockstep_consumption_witness :
    (compare ['\x00'] ["a", "b", ""] ["a", "b", "c"]).n = 2 ∧
    (compare ['\x00'] ["a", "b", ""] ["a", "b", "c"]).linesRead ["a", "b", "c"] = 2 ∧
    ["a", "b", ""].length - (compare ['\x00'] ["a", "b", ""] ["a", "b", "c"]).ans.length = 3 ∧
    ((compare ['\x00'] ["a", "b", ""] ["a", "b", "c"]).linesRead ["a", "b", "c"]
        = (compare ['\x00'] ["a", "b", ""] ["a", "b", "c"]).n ∧
      (["a", "b", ""].length - (compare ['\x00'] ["a", "b", ""] ["a", "b", "c"]).ans.length
          = (compare ['\x00'] ["a", "b", ""] ["a", "b", "c"]).n ∨
        (["a", "b", ""].length - (compare ['\x00'] ["a", "b", ""] ["a", "b", "c"]).ans.length
            = (compare ['\x00'] ["a", "b", ""] ["a", "b", "c"]).n + 1 ∧
          ∃ l, ["a", "b", ""].getLast? = some l ∧ rtrim ['\x00'] l = some ""))) :=
  ⟨by decide, by decide, by decide,
    (lockstep_consumption ['\x00'] ["a", "b", ""] ["a", "b", "c"]).2.2 ⟨"2 lines", by decide⟩⟩

/-- C15 as stated fails when the reference is two blank lines: on `R = ["", ""]`,
`S = [""]` the run is Accepted with `n = 1`, the reported line is the empty line
and the reference has no non-blank line.  It also fails, through the read of
`rtrim` before the buffer, on a reference of one blank line: with a space before
the buffer `R = ["   "]`, `S = ["   "]` is Accepted with `n = 1` and the reported
line is that blank line. -/
theorem single_line_reported_counterexample :
    ((compare ['\x00'] ["", ""] [""]).exit = .accepted "single line: ''" ∧
      (compare ['\x00'] ["", ""] [""]).n = 1 ∧
      (compare ['\x00'] ["", ""] [""]).strAnswer = "" ∧
      AllSpaces (compare ['\x00'] ["", ""] [""]).strAnswer ∧
      lastNonBlank ["", ""] = none) ∧
    ((compare [' ', 'x'] ["   "] ["   "]).exit = .accepted "single line: '   '" ∧
      (compare [' ', 'x'] ["   "] ["   "]).n = 1 ∧
      AllSpaces (compare [' ', 'x'] ["   "] ["   "]).strAnswer ∧
      lastNonBlank ["   "] = none) := by
  refine ⟨⟨by decide, by decide, by decide, by decide, by decide⟩,
    by decide, by decide, by decide, by decide⟩

/-- C15, amended: for a reference on whose blank lines `rtrim` returns the empty
string, in an Accepted run with `n = 1` the line reported in the
`single line: '...'` message is the one compared line, the first reference line
(trimmed, in compressed form as printed).  It is the last non-blank reference
line when it is not blank; it is blank only when the reference is two blank
lines. -/
theorem single_line_reported (before : List Char) (R S : List String)
    (hret : ∀ l ∈ R, AllSpaces l → rtrim before l = some "")
    (ha : (compare before R S).isAccepted) (hn : (compare before R S).n = 1) :
    ∃ r, R[0]? = some r ∧ rtrim before r = some (trim r) ∧
      (compare before R S).exit
        = .accepted ("single line: '" ++ c_str (compress (trim r)) ++ "'") ∧
      (¬ AllSpaces r → lastNonBlank R = some r) ∧
      (AllSpaces r → R.length = 2 ∧ ∀ l ∈ R, AllSpaces l) := by
  have hrt : ∀ l ∈ R, rtrim before l = some (trim l) := by
    intro l hl
    by_cases hs : AllSpaces l
    · rw [hret l hl hs, trim_of_allSpaces hs]
    · exact rtrim_eq_trim_of (Or.inr hs)
  unfold compare at ha hn ⊢
  obtain ⟨_, h2, h3, _, _, _⟩ := endsAccepted_of_accepted ha
  rw [h3, Nat.zero_add] at hn
  obtain ⟨r, hr⟩ := List.length_eq_one.mp hn
  have hfilter : ∀ l : String, AllSpaces l → ¬ AllSpaces r →
      lastNonBlank [r, l] = some r := by
    intro l hl hnr
    simp [lastNonBlank, List.filter, hl, hnr]
  rcases comparedLines_eq_or before R with e | ⟨l, e, hl⟩
  · rw [hr] at e
    subst e
    have hrr := hrt r (by simp)
    have hexit : (loop before [r] S "" 0).exit
        = .accepted ("single line: '" ++ c_str (compress (trim r)) ++ "'") := by
      rw [h2, hr]
      simp [lastAnswer, hrr, okMessage]
    have hne : ¬ AllSpaces r := by
      intro hall
      have h := comparedLines_singleton before r
      rw [hr, if_pos (hret r (by simp) hall)] at h
      cases h
    refine ⟨r, rfl, hrr, hexit, ?_, fun h => absurd h hne⟩
    intro _
    simp [lastNonBlank, List.filter, hne]
  · rw [hr] at e
    subst e
    have hrr := hrt r (by simp)
    have hexit : (loop before ([r] ++ [l]) S "" 0).exit
        = .accepted ("single line: '" ++ c_str (compress (trim r)) ++ "'") := by
      rw [h2, hr]
      simp [lastAnswer, hrr, okMessage]
    have hl' := allSpaces_of_rtrim_empty hl
    refine ⟨r, rfl, hrr, hexit, fun hnr => hfilter l hl' hnr, ?_⟩
    intro hall
    refine ⟨rfl, ?_⟩
    intro x hx
    simp only [List.singleton_append, List.mem_cons, List.mem_singleton] at hx
    rcases hx with hx | hx | hx
    · rw [hx]; exact hall
    · rw [hx]; exact hl'
    · cases hx

/-- C15, amended, at `R = ["only line", " "]`, `S = ["only line"]`. -/
theorem single_line_reported_witness :
    (compare ['\x00'] ["only line", " "] ["only line"]).exit
      = .accepted "single line: 'only line'" ∧
    lastNonBlank ["only line", " "] = some "only line" ∧
    ∃ r, ["only line", " "][0]? = some r ∧ rtrim ['\x00'] r = some (trim r) ∧
      (compare ['\x00'] ["only line", " "] ["only line"]).exit
        = .accepted ("single line: '" ++ c_str (compress (trim r)) ++ "'") ∧
      (¬ AllSpaces r → lastNonBlank ["only line", " "] = some r) ∧
      (AllSpaces r → ["only line", " "].length = 2 ∧ ∀ l ∈ ["only line", " "], AllSpaces l) :=
  ⟨by decide, by decide,
    single_line_reported ['\x00'] ["only line", " "] ["only line"]
      (fun l _ hl => rtrim_blank ⟨'\x00', [], rfl, by decide⟩ hl)
      ⟨"single line: 'only line'", by decide⟩ (by decide)⟩

/-- With the byte before the buffer not a space, a reference that is empty
or is a single line of spaces only is Accepted with `0 lines` for every
submission, and no submission line is read; conversely an Accepted run with
`n = 0` has such a reference. -/
theorem compare_zero_lines (before : List Char) (hb : StopsBelow before)
    (R S : List String) :
    ((R = [] ∨ ∃ b, R = [b] ∧ AllSpaces b) →
      (compare before R S).exit = .accepted "0 lines" ∧ (compare before R S).n = 0 ∧
      (compare before R S).ouf = S ∧ (compare before R S).linesRead S = 0) ∧
    ((compare before R S).isAccepted → (compare before R S).n = 0 →
      R = [] ∨ ∃ b, R = [b] ∧ AllSpaces b) := by
  have hm : okMessage 0 "" = "0 lines" := by decide
  refine ⟨?_, ?_⟩
  · rintro (h | ⟨b, h, hblank⟩)
    · subst h
      rw [compare, loop_nil, hm]
      exact ⟨rfl, rfl, rfl, by simp [Run.linesRead]⟩
    · subst h
      rw [compare, loop_break (rtrim_blank hb hblank), hm]
      exact ⟨rfl, rfl, rfl, by simp [Run.linesRead]⟩
  · intro ha hn
    unfold compare at ha hn
    obtain ⟨_, _, h3, _, _, _⟩ := endsAccepted_of_accepted ha
    rw [h3, Nat.zero_add] at hn
    have hnil := List.length_eq_zero.mp hn
    rcases comparedLines_eq_or before R with e | ⟨l, e, hl⟩
    · left; rw [← e, hnil]
    · right
      refine ⟨l, ?_, allSpaces_of_rtrim_empty hl⟩
      rw [e, hnil]; rfl

/-- The same at `R = ["  "]`, `S = ["x", "y"]`. -/
theorem compare_zero_lines_witness :
    (compare ['\x00'] ["  "] ["x", "y"]).exit = .accepted "0 lines" ∧
    (compare ['\x00'] ["  "] ["x", "y"]).n = 0 ∧
    (compare ['\x00'] ["  "] ["x", "y"]).ouf = ["x", "y"] ∧
    (compare ['\x00'] ["  "] ["x", "y"]).linesRead ["x", "y"] = 0 :=
  (compare_zero_lines ['\x00'] ⟨'\x00', [], rfl, by decide⟩ ["  "] ["x", "y"]).1
    (Or.inr ⟨"  ", rfl, by decide⟩)

/-! ## Where the read before the buffer changes the result

The scan of `rtrim` reads index `-1` on an empty or all-space line (C16).  When
the byte there is a space the line comes back untrimmed, and when no byte before
the buffer stops the scan the run ends in no verdict.  The statements below
evaluate the checker on such runs. -/

/-- C3 fails on the code, through the defect of C16: with a space before the
buffer, the blank line `"  "` appended to `R = ["a"]` is not trimmed to the empty
string, a submission line is asked for it, and the run on `S = ["a"]` ends in the
end-of-stream error instead of the Accepted of the run on `R`. -/
theorem appended_blank_breaks :
    (∀ l, ["a"].getLast? = some l → rtrim [' ', 'x'] l ≠ some "") ∧ AllSpaces "  " ∧
    rtrim [' ', 'x'] "  " = some "  " ∧
    (compare [' ', 'x'] (["a"] ++ ["  "]) ["a"]).exit = .unexpectedEof ∧
    (compare [' ', 'x'] ["a"] ["a"]).exit = .accepted "single line: 'a'" := by
  refine ⟨?_, by decide, by decide, by decide, by decide⟩
  intro l hl
  cases hl
  decide

/-- C4 fails on the code, through the defect of C16, for the empty line `s`: with
a space before the buffer the reference line of two spaces is not trimmed, and
against the submission line `""` the run is WrongAnswer at that position. -/
theorem blank_reference_breaks :
    NoTrailingSpace "" ∧ "" ++ spaces 2 = "  " ∧
    ["" ++ spaces 2, "a"][0]? = some ("" ++ spaces 2) ∧ ["", "a"][0]? = some "" ∧
    rtrim [' ', 'x'] ("" ++ spaces 2) = some "  " ∧
    (compare [' ', 'x'] ["" ++ spaces 2, "a"] ["", "a"]).exit
      = .wrongAnswer "1st lines differ - expected: '  ', found: ''" ∧
    (compare [' ', 'x'] ["" ++ spaces 2, "a"] ["", "a"]).n = 0 + 1 := by
  refine ⟨by decide, by decide, by decide, by decide, by decide, by decide, by decide⟩

/-- C12 fails on the code, through the defect of C16: with a space before the
buffer the scan of `rtrim` on a line of three spaces goes on to index `-2`, and
`string(s, 0, p+1)` with `p + 1 = -1` copies the whole line; when nothing before
the buffer stops the scan `rtrim("")` does not return. -/
theorem blank_line_untrimmed :
    AllSpaces "   " ∧
    rtrimReads [' ', 'x'] "   " = [2, 1, 0, -1, -2] ∧
    scanFrom [' ', 'x'] "   ".data 3 = some (-2) ∧
    rtrim [' ', 'x'] "   " = some "   " ∧
    rtrim [' ', 'x'] "   " ≠ some "" ∧
    rtrim [] "" = none := by
  refine ⟨by decide, by decide, by decide, by decide, by decide, by decide⟩

/-- C18 fails on the code, through the defect of C16: with a space before the
buffer, the reference of a single line of two spaces is not Accepted with
`0 lines`; the line is compared with the first submission line and the run is
WrongAnswer. -/
theorem zero_lines_breaks :
    AllSpaces "  " ∧
    (compare [' ', 'x'] ["  "] ["x", "y"]).exit
      = .wrongAnswer "1st lines differ - expected: '  ', found: 'x'" ∧
    (compare [' ', 'x'] ["  "] ["x", "y"]).n = 1 ∧
    (compare [' ', 'x'] ["  "] ["x", "y"]).linesRead ["x", "y"] = 1 := by
  refine ⟨by decide, by decide, by decide, by decide⟩

end FcmpRtrim
